import Mathlib

/-!
# Verification of the ttybox OSC 52 clipboard module

Shallow embedding of `src/clipboard.rs`: the frame codec (base64 encoding and
the `ESC ] 5 2 ; <sel> ; payload BEL` escape frames), the response decoder
`osc_decode_paste`, the terminal-mode scope `with_noecho_cbreak_mode`, the
poll-driven `read_paste_response` loop, and the `execute_get` output path.

Bytes are modelled as `Nat` values; where byte-ness matters a `< 256` bound is
carried as a hypothesis.
-/

namespace Ttybox

/-- The kinds of `std::io::Error` the module produces.  Rust's
`io::ErrorKind` has more variants; these are the ones this code constructs
(`InvalidData`, `Unsupported`, `UnexpectedEof`, `WouldBlock`) plus a
catch-all for other OS errors. -/
inductive IoErrorKind where
  | invalidData
  | unsupported
  | unexpectedEof
  | wouldBlock
  | otherOsError
  deriving DecidableEq, Repr

/-- An `std::io::Error`: a kind plus the message given to `io::Error::new`. -/
structure IoError where
  kind : IoErrorKind
  msg : String
  deriving DecidableEq, Repr

/-- The error built at clipboard.rs:152-155 (`rsplit(...).next().ok_or(...)`). -/
def malformedFrameError : IoError :=
  ⟨.invalidData, "Cannot parse OSC 52 response."⟩

/-- The error built at clipboard.rs:157-160 (`strip_suffix(...).ok_or(...)`). -/
def missingTerminatorError : IoError :=
  ⟨.invalidData, "OSC 52 response doesn't contain the terminating character."⟩

/-- The error built at clipboard.rs:161-166 (`BASE64_STANDARD.decode(...).map_err(...)`). -/
def invalidPayloadError : IoError :=
  ⟨.invalidData, "OSC 52 response doesn't contain valid base64 content."⟩

/-- The error built at clipboard.rs:210-214 when `poll` returns no events. -/
def unsupportedError : IoError :=
  ⟨.unsupported, "The terminal emulator either doesn't support OSC 52 or is sluggish."⟩

/-! ## Base64 (the crate's `BASE64_STANDARD` engine)

Standard alphabet `A-Za-z0-9+/` with `=` padding; decoding requires canonical
padding and rejects nonzero trailing bits (the crate's `general_purpose::PAD`
configuration). -/

/-- The standard-alphabet symbol for a sextet `n < 64`, as an ASCII byte. -/
def b64char (n : Nat) : Nat :=
  if n < 26 then 65 + n        -- A-Z
  else if n < 52 then 71 + n   -- a-z  (97 + (n - 26))
  else if n < 62 then n - 4    -- 0-9  (48 + (n - 52))
  else if n = 62 then 43       -- +
  else 47                      -- /

/-- The sextet value of an ASCII byte, `none` for bytes outside the standard
alphabet (`=` included: padding is handled structurally by the decoder). -/
def b64val (c : Nat) : Option Nat :=
  if 65 ≤ c ∧ c ≤ 90 then some (c - 65)
  else if 97 ≤ c ∧ c ≤ 122 then some (c - 97 + 26)
  else if 48 ≤ c ∧ c ≤ 57 then some (c - 48 + 52)
  else if c = 43 then some 62
  else if c = 47 then some 63
  else none

/-- `BASE64_STANDARD.encode`: three input bytes become four alphabet bytes;
a final group of two or one input bytes is padded with `=` (61). -/
def b64encode : List Nat → List Nat
  | a :: b :: c :: rest =>
      b64char (a / 4) :: b64char (a % 4 * 16 + b / 16) ::
      b64char (b % 16 * 4 + c / 64) :: b64char (c % 64) :: b64encode rest
  | [a, b] => [b64char (a / 4), b64char (a % 4 * 16 + b / 16), b64char (b % 16 * 4), 61]
  | [a] => [b64char (a / 4), b64char (a % 4 * 16), 61, 61]
  | [] => []

/-- `BASE64_STANDARD.decode`: the input length must be a multiple of four,
`=` may appear only as the final one or two bytes, and padding sextets must
have zero trailing bits (the engine's canonical-padding configuration). -/
def b64decode : List Nat → Option (List Nat)
  | [] => some []
  | c1 :: c2 :: c3 :: c4 :: rest => do
      let v1 ← b64val c1
      let v2 ← b64val c2
      if c3 = 61 then
        if c4 = 61 ∧ rest = [] ∧ v2 % 16 = 0 then
          some [v1 * 4 + v2 / 16]
        else none
      else do
        let v3 ← b64val c3
        if c4 = 61 then
          if rest = [] ∧ v3 % 4 = 0 then
            some [v1 * 4 + v2 / 16, v2 % 16 * 16 + v3 / 4]
          else none
        else do
          let v4 ← b64val c4
          let tail ← b64decode rest
          some ((v1 * 4 + v2 / 16) :: (v2 % 16 * 16 + v3 / 4) :: (v3 % 4 * 64 + v4) :: tail)
  | _ => none

/-! ## Frame codec (`osc_copy`, `osc_request_paste`, `osc_decode_paste`) -/

/-- The byte sequence `osc_copy` builds and writes to `/dev/tty`
(clipboard.rs:84-98): `ESC ] 5 2 ; <sel> ;`, the base64 payload, then BEL.
The selector is `p` (112) when `--primary` was given, else `c` (99). -/
def osc_copy_sequence (content : List Nat) (primary : Bool) : List Nat :=
  [27, 93, 53, 50, 59, if primary then 112 else 99, 59] ++ b64encode content ++ [7]

/-- The byte sequence `osc_request_paste` writes (clipboard.rs:120-134):
`ESC ] 5 2 ; <sel> ; ? BEL`. -/
def osc_paste_sequence (primary : Bool) : List Nat :=
  [27, 93, 53, 50, 59, if primary then 112 else 99, 59, 63, 7]

/-- The segments of `l` split on `;` (59), in left-to-right order.  Rust's
`slice::rsplit` yields exactly these segments from the right, so the `.next()`
item at clipboard.rs:150-151 is `(rsplitSegs l).getLast?`.  Like `rsplit`,
the segment list is never empty: an input with no separator yields one segment
(the whole input), and each separator adds one segment. -/
def rsplitSegs : List Nat → List (List Nat)
  | [] => [[]]
  | b :: rest =>
      match rsplitSegs rest with
      | [] => [[]]
      | seg :: segs => if b = 59 then [] :: seg :: segs else (b :: seg) :: segs

/-- `slice::strip_suffix(b"\x07")` (clipboard.rs:156): `some` of the input
without its final byte when that byte is BEL (7), else `none`. -/
def stripSuffixBel (l : List Nat) : Option (List Nat) :=
  if l.getLast? = some 7 then some l.dropLast else none

/-- `osc_decode_paste` (clipboard.rs:148-167): take the segment after the last
`;` (`rsplit(';').next()`, with the `ok_or` guard kept as in the source),
strip the BEL terminator, then base64-decode. -/
def osc_decode_paste (osc_response : List Nat) : Except IoError (List Nat) :=
  match (rsplitSegs osc_response).getLast? with
  | none => .error malformedFrameError
  | some trailing =>
      match stripSuffixBel trailing with
      | none => .error missingTerminatorError
      | some content =>
          match b64decode content with
          | none => .error invalidPayloadError
          | some decoded => .ok decoded

/-! ## Terminal mode scope (`with_noecho_cbreak_mode`, clipboard.rs:169-183)

The ncurses calls are pure side effects on the terminal's process-wide mode, so
the embedding records the call order as a trace; the wrapped closure performs
only I/O on `/dev/tty`, abstracted by the `Except` value it returns. -/

/-- One observable step of `with_noecho_cbreak_mode`: an ncurses call, or the
run of the wrapped closure. -/
inductive TermEvent where
  | initscr
  | noecho
  | cbreak
  | closureRun
  | nocbreak
  | echo
  | endwin
  deriving DecidableEq, Repr

/-- `with_noecho_cbreak_mode` (clipboard.rs:169-183): `initscr`, `noecho`,
`cbreak`, run the closure and keep its result `rv`, then unconditionally
`nocbreak`, `echo`, `endwin`, and only then return `rv`.  There is no early
return between the closure and the restoring calls in the source. -/
def with_noecho_cbreak_mode (func : Except IoError (List Nat)) :
    Except IoError (List Nat) × List TermEvent :=
  let rv := func
  (rv, [.initscr, .noecho, .cbreak, .closureRun, .nocbreak, .echo, .endwin])

/-- The closure passed to `with_noecho_cbreak_mode` by `osc_paste`
(clipboard.rs:112-116): open `/dev/tty`, write the paste request, then read
the response.  Each fallible step is abstracted by its result. -/
def osc_paste_closure (openResult : Except IoError Unit)
    (requestResult : Except IoError Unit)
    (receiveResult : Except IoError (List Nat)) : Except IoError (List Nat) :=
  match openResult with
  | .error e => .error e
  | .ok _ =>
      match requestResult with
      | .error e => .error e
      | .ok _ => receiveResult

/-- `osc_paste` (clipboard.rs:103-118): run the closure under
`with_noecho_cbreak_mode`, propagate its error, else decode the response. -/
def osc_paste (openResult requestResult : Except IoError Unit)
    (receiveResult : Except IoError (List Nat)) : Except IoError (List Nat) :=
  match (with_noecho_cbreak_mode
      (osc_paste_closure openResult requestResult receiveResult)).1 with
  | .error e => .error e
  | .ok response => osc_decode_paste response

/-! ## Response reader (`read_paste_response`, clipboard.rs:198-230)

Each loop iteration calls `poll` with a 500 ms timeout and then drains the
descriptor.  The environment is a script: one entry per readiness event, with
the gap in milliseconds since the previous `poll` call and the outcome of
`read_with_draining` (a chunk of bytes, or a read error such as
`UnexpectedEof`).  `none` means the script ran out while the loop was still
waiting — no result yet. -/

def read_paste_response :
    List (Nat × Except IoError (List Nat)) → List Nat →
      Option (Except IoError (List Nat))
  | [], _ => none
  | (gapMs, drainResult) :: rest, content =>
      -- poll(events, Some(500ms)): no event within the window ⇒ empty events
      if 500 < gapMs then
        some (.error unsupportedError)
      else
        match drainResult with
        | .error e => some (.error e)
        | .ok chunk =>
            let content' := content ++ chunk
            -- content.ends_with(b"\x07")
            if content'.getLast? = some 7 then some (.ok content')
            else read_paste_response rest content'

/-! ## `execute_get` (clipboard.rs:78-82)

`io::stdout().write(content)?` performs a single `Write::write` call, which by
contract may accept only a prefix of the buffer; the returned count is
discarded by the source.  The environment chooses how many bytes the OS
accepts; the model returns the bytes actually written on success. -/

/-- `Write::write` on stdout: the OS accepts `min accepted content.length`
bytes; those leading bytes are written and the count is returned. -/
def stdout_write (content : List Nat) (accepted : Nat) : Nat × List Nat :=
  (min accepted content.length, content.take accepted)

/-- `execute_get`: propagate `osc_paste`'s error, else write the decoded
content to stdout with one `write` call and report success.  The model's
`ok` value is the list of bytes that actually reached stdout. -/
def execute_get (pasteResult : Except IoError (List Nat)) (accepted : Nat) :
    Except IoError (List Nat) :=
  match pasteResult with
  | .error e => .error e
  | .ok content => .ok (stdout_write content accepted).2

/-! ## Lemmas about `rsplitSegs` and `stripSuffixBel` -/

/-- Unfolding equation for `rsplitSegs` on a nonempty list. -/
theorem rsplitSegs_cons (b : Nat) (rest : List Nat) :
    rsplitSegs (b :: rest) =
      match rsplitSegs rest with
      | [] => [[]]
      | seg :: segs => if b = 59 then [] :: seg :: segs else (b :: seg) :: segs := rfl

theorem rsplitSegs_ne_nil (l : List Nat) : rsplitSegs l ≠ [] := by
  cases l with
  | nil => simp [rsplitSegs]
  | cons b rest =>
      rw [rsplitSegs_cons]
      cases h : rsplitSegs rest with
      | nil => simp
      | cons seg segs => by_cases hb : b = 59 <;> simp [hb]

/-- A separator-free list is a single segment. -/
theorem rsplitSegs_of_not_mem {l : List Nat} (h : 59 ∉ l) : rsplitSegs l = [l] := by
  induction l with
  | nil => rfl
  | cons b rest ih =>
      have hb : b ≠ 59 := fun hb => h (hb ▸ List.mem_cons_self b rest)
      have hrest : 59 ∉ rest := fun hm => h (List.mem_cons_of_mem b hm)
      simp [rsplitSegs, ih hrest, hb]

/-- A list containing the separator splits into at least two segments. -/
theorem rsplitSegs_two_le_length {l : List Nat} (h : 59 ∈ l) :
    2 ≤ (rsplitSegs l).length := by
  induction l with
  | nil => cases h
  | cons b rest ih =>
      simp only [rsplitSegs]
      obtain ⟨seg, segs, hsegs⟩ :
          ∃ seg segs, rsplitSegs rest = seg :: segs := by
        cases hr : rsplitSegs rest with
        | nil => exact absurd hr (rsplitSegs_ne_nil rest)
        | cons s ss => exact ⟨s, ss, rfl⟩
      rw [hsegs]
      by_cases hb : b = 59
      · simp [hb]
      · have hmem : 59 ∈ rest := by
          rcases List.mem_cons.mp h with h59 | h59
          · exact absurd h59.symm hb
          · exact h59
        have := ih hmem
        rw [hsegs] at this
        simp only [if_neg hb, List.length_cons] at this ⊢
        omega

/-- The segment after the last `;` of `A ++ ; :: s` is `s`, when `s` itself is
separator-free. -/
theorem rsplitSegs_getLast?_append (A : List Nat) {s : List Nat} (hs : 59 ∉ s) :
    (rsplitSegs (A ++ 59 :: s)).getLast? = some s := by
  induction A with
  | nil =>
      simp [rsplitSegs, rsplitSegs_of_not_mem hs]
  | cons a A ih =>
      obtain ⟨seg, segs, hsegs⟩ :
          ∃ seg segs, rsplitSegs (A ++ 59 :: s) = seg :: segs := by
        cases hr : rsplitSegs (A ++ 59 :: s) with
        | nil => exact absurd hr (rsplitSegs_ne_nil _)
        | cons x xs => exact ⟨x, xs, rfl⟩
      obtain ⟨t, ts, hts⟩ : ∃ t ts, segs = t :: ts := by
        have h2 := rsplitSegs_two_le_length
          (l := A ++ 59 :: s) (by simp)
        rw [hsegs] at h2
        cases segs with
        | nil => simp at h2
        | cons t ts => exact ⟨t, ts, rfl⟩
      subst hts
      rw [hsegs] at ih
      simp only [List.getLast?_cons_cons] at ih
      rw [List.cons_append, rsplitSegs_cons, hsegs]
      by_cases ha : a = 59 <;>
        simp only [ha, if_pos, if_neg, ite_true, ite_false,
          List.getLast?_cons_cons] <;>
        exact ih

/-- Stripping BEL from a payload that ends in exactly one BEL. -/
theorem stripSuffixBel_append (s : List Nat) : stripSuffixBel (s ++ [7]) = some s := by
  simp [stripSuffixBel, List.getLast?_concat, List.dropLast_concat]

/-! ## Lemmas about the base64 codec -/

/-- The decode table inverts the encode table on every sextet. -/
theorem b64val_b64char_fin : ∀ n : Fin 64, b64val (b64char n.1) = some n.1 := by
  decide

theorem b64val_b64char {n : Nat} (h : n < 64) : b64val (b64char n) = some n :=
  b64val_b64char_fin ⟨n, h⟩

/-- Alphabet bytes are never `;` (59), BEL (7) or `=` (61). -/
theorem b64char_ne (n : Nat) : b64char n ≠ 59 ∧ b64char n ≠ 7 ∧ b64char n ≠ 61 := by
  unfold b64char
  split_ifs <;> omega

/-- No byte of an encoded payload is `;` or BEL. -/
theorem b64encode_mem_ne {X : List Nat} : ∀ x ∈ b64encode X, x ≠ 59 ∧ x ≠ 7 := by
  induction X using b64encode.induct with
  | case1 a b c rest ih =>
      intro x hx
      simp only [b64encode, List.mem_cons] at hx
      rcases hx with h | h | h | h | h
      · exact h ▸ ⟨(b64char_ne _).1, (b64char_ne _).2.1⟩
      · exact h ▸ ⟨(b64char_ne _).1, (b64char_ne _).2.1⟩
      · exact h ▸ ⟨(b64char_ne _).1, (b64char_ne _).2.1⟩
      · exact h ▸ ⟨(b64char_ne _).1, (b64char_ne _).2.1⟩
      · exact ih x h
  | case2 a b =>
      intro x hx
      simp only [b64encode, List.mem_cons, List.not_mem_nil, or_false] at hx
      rcases hx with h | h | h | h <;> subst h
      · exact ⟨(b64char_ne _).1, (b64char_ne _).2.1⟩
      · exact ⟨(b64char_ne _).1, (b64char_ne _).2.1⟩
      · exact ⟨(b64char_ne _).1, (b64char_ne _).2.1⟩
      · exact ⟨by omega, by omega⟩
  | case3 a =>
      intro x hx
      simp only [b64encode, List.mem_cons, List.not_mem_nil, or_false] at hx
      rcases hx with h | h | h | h <;> subst h
      · exact ⟨(b64char_ne _).1, (b64char_ne _).2.1⟩
      · exact ⟨(b64char_ne _).1, (b64char_ne _).2.1⟩
      · exact ⟨by omega, by omega⟩
      · exact ⟨by omega, by omega⟩
  | case4 => intro x hx; cases hx

/-- Decoding inverts encoding on any sequence of bytes. -/
theorem b64decode_b64encode (X : List Nat) :
    (∀ b ∈ X, b < 256) → b64decode (b64encode X) = some X := by
  induction X using b64encode.induct with
  | case1 a b c rest ih =>
      intro h
      have ha : a < 256 := h a (by simp)
      have hb : b < 256 := h b (by simp)
      have hc : c < 256 := h c (by simp)
      have ih' : b64decode (b64encode rest) = some rest :=
        ih fun x hx => h x (by simp [hx])
      have hv1 := b64val_b64char (n := a / 4) (by omega)
      have hv2 := b64val_b64char (n := a % 4 * 16 + b / 16) (by omega)
      have hv3 := b64val_b64char (n := b % 16 * 4 + c / 64) (by omega)
      have hv4 := b64val_b64char (n := c % 64) (by omega)
      simp only [b64encode, b64decode, hv1, hv2, hv3, hv4, Option.some_bind,
        Option.bind_eq_bind, if_neg (b64char_ne (b % 16 * 4 + c / 64)).2.2,
        if_neg (b64char_ne (c % 64)).2.2, ih', Option.some.injEq,
        List.cons.injEq]
      exact ⟨by omega, by omega, by omega, trivial⟩
  | case2 a b =>
      intro h
      have ha : a < 256 := h a (by simp)
      have hb : b < 256 := h b (by simp)
      have hv1 := b64val_b64char (n := a / 4) (by omega)
      have hv2 := b64val_b64char (n := a % 4 * 16 + b / 16) (by omega)
      have hv3 := b64val_b64char (n := b % 16 * 4) (by omega)
      have hm : b % 16 * 4 % 4 = 0 := by omega
      simp only [b64encode, b64decode, hv1, hv2, hv3, Option.some_bind,
        Option.bind_eq_bind, if_neg (b64char_ne (b % 16 * 4)).2.2, hm]
      simp only [and_self, ite_true, Option.some.injEq, List.cons.injEq]
      exact ⟨by omega, by omega, trivial⟩
  | case3 a =>
      intro h
      have ha : a < 256 := h a (by simp)
      have hv1 := b64val_b64char (n := a / 4) (by omega)
      have hv2 := b64val_b64char (n := a % 4 * 16) (by omega)
      have hm : a % 4 * 16 % 16 = 0 := by omega
      simp only [b64encode, b64decode, hv1, hv2, Option.some_bind,
        Option.bind_eq_bind, hm]
      simp only [and_self, ite_true, Option.some.injEq, List.cons.injEq]
      exact ⟨by omega, trivial⟩
  | case4 => intro _; rfl

/-- A list whose only BEL is the appended terminator: the only prefix (given
as `take n`) ending in BEL is the whole list. -/
theorem take_concat_getLast_bel {F : List Nat} (h7 : 7 ∉ F) :
    ∀ n, ((F ++ [7]).take n).getLast? = some 7 → (F ++ [7]).take n = F ++ [7] := by
  intro n hn
  by_cases hle : n ≤ F.length
  · rw [List.take_append_of_le_length hle] at hn
    exact absurd (List.mem_of_mem_take (List.mem_of_mem_getLast? hn)) h7
  · exact List.take_of_length_le (by simp; omega)

/-- The base64 payload together with the BEL terminator is separator-free. -/
theorem payload_bel_no_semi (content : List Nat) :
    (59 : Nat) ∉ b64encode content ++ [7] := by
  intro hm
  rcases List.mem_append.mp hm with hm | hm
  · exact (b64encode_mem_ne 59 hm).1 rfl
  · simp at hm

/-- Decoding any response of the shape `A ++ ; ++ base64(X) ++ BEL`
recovers `X`. -/
theorem osc_decode_paste_frame (A : List Nat) {X : List Nat}
    (h : ∀ b ∈ X, b < 256) :
    osc_decode_paste (A ++ 59 :: (b64encode X ++ [7])) = .ok X := by
  simp only [osc_decode_paste,
    rsplitSegs_getLast?_append A (payload_bel_no_semi X),
    stripSuffixBel_append, b64decode_b64encode X h]

/-! ## Claim theorems -/

/-- C1: round-trip of the frame codec.  For every byte sequence `X`, decoding
a response frame `ESC ] 5 2 ; <sel> ;` ++ base64(X) ++ BEL yields exactly `X`;
in particular `osc_decode_paste` inverts the frame built by `osc_copy`, for
either selection. -/
theorem osc_copy_decode_roundtrip (X : List Nat) (h : ∀ b ∈ X, b < 256) :
    (∀ sel : Nat,
      osc_decode_paste ([27, 93, 53, 50, 59, sel, 59] ++ b64encode X ++ [7]) =
        .ok X) ∧
    (∀ primary : Bool,
      osc_decode_paste (osc_copy_sequence X primary) = .ok X) := by
  constructor
  · intro sel
    simpa [List.append_assoc] using
      osc_decode_paste_frame [27, 93, 53, 50, 59, sel] h
  · intro primary
    simpa [osc_copy_sequence, List.append_assoc] using
      osc_decode_paste_frame [27, 93, 53, 50, 59, if primary then 112 else 99] h

/-- Witness for C1: the round-trip evaluated on the bytes of `"hello"`. -/
theorem osc_copy_decode_roundtrip_witness :
    (∀ b ∈ [104, 101, 108, 108, 111], b < 256) ∧
    osc_decode_paste (osc_copy_sequence [104, 101, 108, 108, 111] false) =
      .ok [104, 101, 108, 108, 111] :=
  ⟨by decide,
   (osc_copy_decode_roundtrip [104, 101, 108, 108, 111] (by decide)).2 false⟩

/-- C8: the copy frame is exactly `ESC ] 5 2 ; <sel> ;` ++ base64(content) ++
BEL, with selector `c` (99) for the clipboard selection and `p` (112) for
primary — the same selector mapping as the paste-request frame (their first
seven bytes agree) — and `osc_copy` on `"hello"`/clipboard produces exactly
the bytes 1B 5D 35 32 3B 63 3B 61 47 56 73 62 47 38 3D 07. -/
theorem osc_copy_frame_bytes :
    (∀ (content : List Nat) (primary : Bool),
      osc_copy_sequence content primary =
        [27, 93, 53, 50, 59, if primary then 112 else 99, 59] ++
          b64encode content ++ [7]) ∧
    (∀ (content : List Nat) (primary : Bool),
      (osc_copy_sequence content primary).take 7 =
        (osc_paste_sequence primary).take 7) ∧
    osc_copy_sequence [104, 101, 108, 108, 111] false =
      [27, 93, 53, 50, 59, 99, 59, 97, 71, 86, 115, 98, 71, 56, 61, 7] := by
  refine ⟨fun content primary => rfl, fun content primary => ?_, by rfl⟩
  cases primary <;> rfl

/-- C10: the copy frame contains exactly two `;` bytes and exactly one BEL,
its last byte is that BEL, splitting at the last `;` recovers the base64
payload plus terminator, stripping the terminator recovers the payload, and
no shorter prefix of the frame ends with BEL (so the reader's ends-with-BEL
test fires only at the true end of the frame). -/
theorem osc_copy_frame_wellformed (content : List Nat) (primary : Bool) :
    (osc_copy_sequence content primary).count 59 = 2 ∧
    (osc_copy_sequence content primary).count 7 = 1 ∧
    (osc_copy_sequence content primary).getLast? = some 7 ∧
    (rsplitSegs (osc_copy_sequence content primary)).getLast? =
      some (b64encode content ++ [7]) ∧
    stripSuffixBel (b64encode content ++ [7]) = some (b64encode content) ∧
    ∀ n, ((osc_copy_sequence content primary).take n).getLast? = some 7 →
      (osc_copy_sequence content primary).take n =
        osc_copy_sequence content primary := by
  have hE := b64encode_mem_ne (X := content)
  have hE59 : (b64encode content).count 59 = 0 :=
    List.count_eq_zero.mpr fun hm => (hE 59 hm).1 rfl
  have hE7 : (b64encode content).count 7 = 0 :=
    List.count_eq_zero.mpr fun hm => (hE 7 hm).2 rfl
  have hF : osc_copy_sequence content primary =
      ([27, 93, 53, 50, 59, if primary then 112 else 99, 59] ++
        b64encode content) ++ [7] := by
    simp [osc_copy_sequence]
  have h7F : 7 ∉ [27, 93, 53, 50, 59, if primary then 112 else 99, 59] ++
      b64encode content := by
    intro hm
    rcases List.mem_append.mp hm with hm | hm
    · cases primary <;> simp_all
    · exact (hE 7 hm).2 rfl
  refine ⟨?_, ?_, ?_, ?_, stripSuffixBel_append _, ?_⟩
  · rw [hF]
    cases primary <;>
      simp [List.count_append, List.count_cons, hE59]
  · rw [hF]
    cases primary <;>
      simp [List.count_append, List.count_cons, hE7]
  · rw [hF]
    exact List.getLast?_concat _
  · simpa [osc_copy_sequence, List.append_assoc] using
      rsplitSegs_getLast?_append
        [27, 93, 53, 50, 59, if primary then 112 else 99]
        (payload_bel_no_semi content)
  · intro n
    rw [hF]
    exact take_concat_getLast_bel h7F n

/-- Witness for C10: the prefix clause evaluated on the empty-content frame,
whose only BEL-ending `take` is the full 8-byte frame. -/
theorem osc_copy_frame_wellformed_witness :
    (osc_copy_sequence [] false).count 59 = 2 ∧
    ((osc_copy_sequence [] false).take 8).getLast? = some 7 ∧
    (osc_copy_sequence [] false).take 8 = osc_copy_sequence [] false :=
  ⟨(osc_copy_frame_wellformed [] false).1, by decide,
   (osc_copy_frame_wellformed [] false).2.2.2.2.2 8 (by decide)⟩

/-- C4 (counterexample): a response with no `;` at all — base64 of `"hello"`
followed by BEL — decodes successfully instead of failing with the
`MalformedFrame` error, because `rsplit(';').next()` yields the whole
response as the trailing segment. -/
theorem osc_decode_paste_no_separator_ok :
    (59 : Nat) ∉ [97, 71, 86, 115, 98, 71, 56, 61, 7] ∧
    osc_decode_paste [97, 71, 86, 115, 98, 71, 56, 61, 7] =
      .ok [104, 101, 108, 108, 111] :=
  ⟨by decide, by rfl⟩

/-- C4 (amended): `osc_decode_paste` never returns the `MalformedFrame`
error — `rsplit` always yields at least one segment, so the `ok_or` at
clipboard.rs:152 is dead code — and a response without `;` is treated as one
whole payload segment. -/
theorem osc_decode_paste_never_malformed :
    (∀ l, osc_decode_paste l ≠ .error malformedFrameError) ∧
    (∀ l : List Nat, 59 ∉ l → (rsplitSegs l).getLast? = some l) := by
  constructor
  · intro l
    obtain ⟨t, ht⟩ : ∃ t, (rsplitSegs l).getLast? = some t := by
      cases h : (rsplitSegs l).getLast? with
      | none => exact absurd (List.getLast?_eq_none_iff.mp h) (rsplitSegs_ne_nil l)
      | some t => exact ⟨t, rfl⟩
    cases hstrip : stripSuffixBel t with
    | none =>
        simp only [osc_decode_paste, ht, hstrip]
        intro hc
        exact absurd (Except.error.inj hc) (by decide)
    | some content =>
        cases hdec : b64decode content with
        | none =>
            simp only [osc_decode_paste, ht, hstrip, hdec]
            intro hc
            exact absurd (Except.error.inj hc) (by decide)
        | some decoded => simp [osc_decode_paste, ht, hstrip, hdec]
  · intro l hl
    simp [rsplitSegs_of_not_mem hl]

/-- Witness for C4's amended claim, at the one-byte response `BEL`. -/
theorem osc_decode_paste_never_malformed_witness :
    osc_decode_paste [7] ≠ .error malformedFrameError ∧
    (59 : Nat) ∉ ([7] : List Nat) ∧
    (rsplitSegs [7]).getLast? = some [7] :=
  ⟨osc_decode_paste_never_malformed.1 [7], by decide,
   osc_decode_paste_never_malformed.2 [7] (by decide)⟩

/-- C5 (counterexample): on the spec's exact byte sequence
`ESC ] 5 2 ; c ; ! ! ! i n v a l i d ; BEL` the decoder succeeds with the
empty sequence — the segment after the *last* `;` is just `BEL`, so the
invalid base64 text is never looked at. -/
theorem osc_decode_paste_spec_invalid_example :
    osc_decode_paste
      [27, 93, 53, 50, 59, 99, 59, 33, 33, 33,
       105, 110, 118, 97, 108, 105, 100, 59, 7] = .ok [] := by
  rfl

/-- C5 (amended): without the extra `;` before BEL — payload segment
`!!!invalid` — decoding fails with the `InvalidPayload` error, since `!` is
not a base64 alphabet byte. -/
theorem osc_decode_paste_invalid_payload :
    osc_decode_paste
      [27, 93, 53, 50, 59, 99, 59, 33, 33, 33,
       105, 110, 118, 97, 108, 105, 100, 7] = .error invalidPayloadError := by
  rfl

/-- C6: whenever the segment after the last `;` does not end with BEL,
decoding fails with the `MissingTerminator` error. -/
theorem osc_decode_paste_missing_terminator :
    ∀ l seg, (rsplitSegs l).getLast? = some seg → seg.getLast? ≠ some 7 →
      osc_decode_paste l = .error missingTerminatorError := by
  intro l seg hseg hbel
  have hstrip : stripSuffixBel seg = none := by simp [stripSuffixBel, hbel]
  simp [osc_decode_paste, hseg, hstrip]

/-- Witness for C6: the spec's concrete case `ESC ] 5 2 ; c ; aGVsbG8=`
(no BEL). -/
theorem osc_decode_paste_missing_terminator_witness :
    (rsplitSegs
        [27, 93, 53, 50, 59, 99, 59, 97, 71, 86, 115, 98, 71, 56, 61]).getLast? =
      some [97, 71, 86, 115, 98, 71, 56, 61] ∧
    ([97, 71, 86, 115, 98, 71, 56, 61] : List Nat).getLast? ≠ some 7 ∧
    osc_decode_paste [27, 93, 53, 50, 59, 99, 59, 97, 71, 86, 115, 98, 71, 56, 61] =
      .error missingTerminatorError :=
  ⟨by decide, by decide,
   osc_decode_paste_missing_terminator
     [27, 93, 53, 50, 59, 99, 59, 97, 71, 86, 115, 98, 71, 56, 61]
     [97, 71, 86, 115, 98, 71, 56, 61] (by decide) (by decide)⟩

/-- C7: a response whose segment after the last `;` is just the BEL byte —
an empty payload — decodes successfully to the empty byte sequence. -/
theorem osc_decode_paste_empty_payload :
    ∀ l, (rsplitSegs l).getLast? = some [7] → osc_decode_paste l = .ok [] := by
  intro l hseg
  simp [osc_decode_paste, hseg, stripSuffixBel, b64decode]

/-- Witness for C7: the spec's concrete case `ESC ] 5 2 ; c ; BEL`. -/
theorem osc_decode_paste_empty_payload_witness :
    (rsplitSegs [27, 93, 53, 50, 59, 99, 59, 7]).getLast? = some [7] ∧
    osc_decode_paste [27, 93, 53, 50, 59, 99, 59, 7] = .ok [] :=
  ⟨by decide, osc_decode_paste_empty_payload _ (by decide)⟩

/-- C2: for every outcome of the wrapped closure — open failure, write
failure, read failure/timeout, or success — `with_noecho_cbreak_mode` returns
exactly that outcome, the restoring calls `nocbreak`, `echo`, `endwin` are the
final three events of its trace, and the closure ran strictly before them; so
an error propagates only after the terminal discipline was restored. -/
theorem with_noecho_cbreak_mode_restores :
    ∀ (openResult requestResult : Except IoError Unit)
      (receiveResult : Except IoError (List Nat)),
      (with_noecho_cbreak_mode
          (osc_paste_closure openResult requestResult receiveResult)).1 =
        osc_paste_closure openResult requestResult receiveResult ∧
      [TermEvent.nocbreak, TermEvent.echo, TermEvent.endwin] <:+
        (with_noecho_cbreak_mode
          (osc_paste_closure openResult requestResult receiveResult)).2 ∧
      TermEvent.closureRun ∈
        (with_noecho_cbreak_mode
          (osc_paste_closure openResult requestResult receiveResult)).2.take 4 := by
  intro openResult requestResult receiveResult
  exact ⟨rfl,
    ⟨[TermEvent.initscr, TermEvent.noecho, TermEvent.cbreak,
      TermEvent.closureRun], rfl⟩,
    by
      show TermEvent.closureRun ∈
        [TermEvent.initscr, TermEvent.noecho, TermEvent.cbreak,
         TermEvent.closureRun]
      decide⟩

/-- C3: if the gap before the next readiness event exceeds the 500 ms poll
window, the reader fails immediately with the `Unsupported` error (no partial
content: nothing accumulated so far is returned), and the window is per poll
call — whenever every inter-event gap is within 500 ms, the reader never
produces the `Unsupported` timeout error, no matter how many events (and how
much total time) the response takes. -/
theorem read_paste_response_timeout_window :
    (∀ (gapMs : Nat) (drainResult : Except IoError (List Nat))
        (rest : List (Nat × Except IoError (List Nat))) (content : List Nat),
      500 < gapMs →
        read_paste_response ((gapMs, drainResult) :: rest) content =
          some (.error unsupportedError)) ∧
    (∀ (env : List (Nat × Except IoError (List Nat))) (content : List Nat),
      (∀ p ∈ env, p.1 ≤ 500 ∧
        ∀ e : IoError, p.2 = .error e → e.kind ≠ IoErrorKind.unsupported) →
      ∀ e : IoError, read_paste_response env content = some (.error e) →
        e.kind ≠ IoErrorKind.unsupported) := by
  constructor
  · intro gapMs drainResult rest content hgap
    simp [read_paste_response, hgap]
  · intro env
    induction env with
    | nil =>
        intro content _ e he
        simp [read_paste_response] at he
    | cons p rest ih =>
        intro content henv e he
        obtain ⟨gapMs, drainResult⟩ := p
        have hp := henv (gapMs, drainResult) (List.mem_cons_self _ _)
        have hgap : ¬ 500 < gapMs := by
          have := hp.1
          omega
        simp only [read_paste_response] at he
        rw [if_neg hgap] at he
        cases drainResult with
        | error e0 =>
            simp only [Option.some.injEq] at he
            have : e0 = e := Except.error.inj he
            exact this ▸ hp.2 e0 rfl
        | ok chunk =>
            by_cases hbel : (content ++ chunk).getLast? = some 7
            · simp only [hbel, if_pos] at he
              cases he.symm.trans rfl  -- some (.ok _) = some (.error e): impossible
            · simp only [hbel, if_neg, ite_false] at he
              exact ih (content ++ chunk)
                (fun q hq => henv q (List.mem_cons_of_mem _ hq)) e he

/-- Witness for C3: a 501 ms gap times out with `Unsupported`; a drain error
of a different kind (`UnexpectedEof` after a timely event) is not the
timeout error. -/
theorem read_paste_response_timeout_window_witness :
    (500 < 501 ∧
      read_paste_response [(501, .ok [])] [] = some (.error unsupportedError)) ∧
    IoErrorKind.unexpectedEof ≠ IoErrorKind.unsupported :=
  ⟨⟨by decide,
    read_paste_response_timeout_window.1 501 (.ok []) [] [] (by decide)⟩,
   read_paste_response_timeout_window.2
     [(100, .error ⟨.unexpectedEof, "eof"⟩)] []
     (by
       intro p hp
       simp only [List.mem_singleton] at hp
       subst hp
       refine ⟨by decide, ?_⟩
       intro e he
       rw [← Except.error.inj he]
       decide)
     ⟨.unexpectedEof, "eof"⟩ rfl⟩

/-- C9 (code-bug evidence): `execute_get` issues a single `write` call and
ignores the returned count, so when stdout accepts only two of the five
decoded bytes the command still reports success having written a strict
prefix; only when the call happens to accept everything is the full content
written. -/
theorem execute_get_partial_write :
    execute_get (.ok [104, 101, 108, 108, 111]) 2 = .ok [104, 101] ∧
    [104, 101] ≠ [104, 101, 108, 108, 111] ∧
    execute_get (.ok [104, 101, 108, 108, 111]) 5 =
      .ok [104, 101, 108, 108, 111] :=
  ⟨rfl, by decide, rfl⟩

end Ttybox
